import Mathlib

/-!
Verification of the speckit-extension core against its specification.

The TypeScript sources are shallowly embedded: each Lean definition
translates one function of the repository (file and line references are
given on each definition).  Strings are handled through their character
lists so that every definition is structurally recursive and can be
evaluated by the kernel.  JavaScript `Map`s and JSON objects are modelled
as insertion-ordered association lists, and the ES2019 stable
`Array.prototype.sort` is modelled by the stable `List.insertionSort`.
-/

namespace Speckit

/-! ## Character / string utilities shared by the embedded functions -/

/-- Character-list prefix test (JS `String.prototype.startsWith`). -/
def startsWithL : List Char → List Char → Bool
  | _, [] => true
  | [], _ :: _ => false
  | c :: cs, p :: ps => c == p && startsWithL cs ps

/-- Character-list substring test (JS `String.prototype.includes`). -/
def containsL : List Char → List Char → Bool
  | [], pat => pat.isEmpty
  | c :: cs, pat => startsWithL (c :: cs) pat || containsL cs pat

/-- ASCII lower-casing of a character list; models the effect of the JS
regex `i` flag / `toLowerCase` on the ASCII file names and tokens used by
the repository. -/
def lowerL (s : List Char) : List Char := s.map Char.toLower

/-- JS whitespace class `\s` restricted to the characters that occur in
this code base. -/
def jsSpace (c : Char) : Bool :=
  c == ' ' || c == '\t' || c == '\n' || c == '\r'

/-- JS word-character class `\w`. -/
def isWordChar (c : Char) : Bool :=
  c.isAlpha || c.isDigit || c == '_'

/-- ASCII lower-case letter test (JS character class `[a-z]`). -/
def isAsciiLower (c : Char) : Bool :=
  'a'.toNat ≤ c.toNat && c.toNat ≤ 'z'.toNat

/-- JS `String.prototype.trim` (leading and trailing whitespace removed). -/
def trimL (s : List Char) : List Char :=
  ((s.dropWhile (fun c => jsSpace c)).reverse.dropWhile (fun c => jsSpace c)).reverse

/-- Numeric value of a (non-empty) digit string, as computed by JS
`parseInt` on the digit captures of the regexes below. -/
def digitsToNat (ds : List Char) : Nat :=
  ds.foldl (fun acc c => 10 * acc + (c.toNat - '0'.toNat)) 0

/-- Decimal digits of a natural number (JS number-to-string for the
template literals `US${n}`, `us${n}`, ...). -/
def natToCharsAux : Nat → Nat → List Char
  | 0, _ => []
  | fuel + 1, n =>
    if n < 10 then [Char.ofNat ('0'.toNat + n)]
    else natToCharsAux fuel (n / 10) ++ [Char.ofNat ('0'.toNat + n % 10)]

def natToChars (n : Nat) : List Char := natToCharsAux (n + 1) n

def natStr (n : Nat) : String := String.mk (natToChars n)

/-- JS `String.prototype.split('\n')` (and, generalised, `split(c)`). -/
def splitOnChar (sep : Char) : List Char → List (List Char)
  | [] => [[]]
  | c :: rest =>
    if c == sep then [] :: splitOnChar sep rest
    else
      match splitOnChar sep rest with
      | [] => [[c]]
      | l :: ls => (c :: l) :: ls

/-- Split a character list at the first occurrence of `sep`, returning the
part before and the part after the separator (used to model lazy regex
groups and JS `String.prototype.replace` of one literal occurrence). -/
def findSub (sep : List Char) : List Char → Option (List Char × List Char)
  | [] => if sep.isEmpty then some ([], []) else none
  | c :: cs =>
    if startsWithL (c :: cs) sep then some ([], (c :: cs).drop sep.length)
    else (findSub sep cs).map (fun p => (c :: p.1, p.2))

/-- JS `s.replace(lit, '')` for a literal pattern: remove the first
occurrence, if any. -/
def removeFirst (pat : List Char) (s : List Char) : List Char :=
  match findSub pat s with
  | some (b, a) => b ++ a
  | none => s

/-! ## Maturity store data model

Embedded from `src/helpers/maturityManager.ts` lines 4-45.  The
`Map<string, _>` values are modelled as insertion-ordered association
lists, matching JS `Map` iteration order. -/

inductive MaturityLevel where
  | none
  | partialL
  | complete
  deriving DecidableEq, Repr

inductive TestStatus where
  | pass
  | fail
  | unknown
  deriving DecidableEq, Repr

structure TestEntry where
  filePath : String
  testName : String
  status : TestStatus
  lastRun : Option String := Option.none
  deriving DecidableEq, Repr

structure ScenarioData where
  level : MaturityLevel
  tests : List TestEntry
  deriving DecidableEq, Repr

structure UserStoryData where
  overall : MaturityLevel
  scenarios : List (String × ScenarioData)
  deriving DecidableEq, Repr

structure MaturityData where
  lastUpdated : Option String := Option.none
  userStories : List (String × UserStoryData)
  deriving DecidableEq, Repr

/-- The JSON-side shapes (`maturityManager.ts` lines 8-31); JSON object
key order is modelled by list order. -/
structure ScenarioDataJson where
  level : MaturityLevel
  tests : List TestEntry
  deriving DecidableEq, Repr

structure UserStoryDataJson where
  overall : MaturityLevel
  scenarios : List (String × ScenarioDataJson)
  deriving DecidableEq, Repr

structure MaturityDataJson where
  lastUpdated : String
  userStories : List (String × UserStoryDataJson)
  deriving DecidableEq, Repr

/-- JS `Map.prototype.get` (first — and in a real `Map` only —
binding of the key). -/
def alistGet {α : Type} (m : List (String × α)) (k : String) : Option α :=
  (m.find? (fun p => p.1 == k)).map (fun p => p.2)

/-- JS `Map.prototype.set`: replace the value at an existing key in
place, otherwise append the new binding. -/
def alistSet {α : Type} (m : List (String × α)) (k : String) (v : α) :
    List (String × α) :=
  match m with
  | [] => [(k, v)]
  | (k', v') :: rest =>
    if k' == k then (k', v) :: rest else (k', v') :: alistSet rest k v

/-- In-place mutation of the value object retrieved by `Map.get`:
the first binding of the key has its value updated. -/
def alistUpdateFirst {α : Type} (m : List (String × α)) (k : String)
    (f : α → α) : List (String × α) :=
  match m with
  | [] => []
  | (k', v') :: rest =>
    if k' == k then (k', f v') :: rest
    else (k', v') :: alistUpdateFirst rest k f

/-- Update the first list element satisfying `p` (mutation of the object
found by `Array.prototype.find`). -/
def updateFirst {α : Type} (p : α → Bool) (f : α → α) : List α → List α
  | [] => []
  | x :: xs => if p x then f x :: xs else x :: updateFirst p f xs

/-- Index of a level in the array `['none', 'partial', 'complete']`
(`levels.indexOf`, `maturityManager.ts` line 144/235). -/
def levelIndex : MaturityLevel → Nat
  | MaturityLevel.none => 0
  | MaturityLevel.partialL => 1
  | MaturityLevel.complete => 2

/-- `levels[i]` for the indices produced by the loops above. -/
def levelOfIndex : Nat → MaturityLevel
  | 0 => MaturityLevel.none
  | 1 => MaturityLevel.partialL
  | _ => MaturityLevel.complete

/-- `MaturityManager.getScenarioMaturity` (`maturityManager.ts` lines
102-113).  The `|| 'none'` only fires when the scenario is absent, since
the level strings are all truthy. -/
def getScenarioMaturity (data : MaturityData) (userStoryNumber : Nat)
    (scenarioId : String) : MaturityLevel :=
  match alistGet data.userStories ("US" ++ natStr userStoryNumber) with
  | Option.none => MaturityLevel.none
  | some story =>
    match alistGet story.scenarios scenarioId with
    | some sc => sc.level
    | Option.none => MaturityLevel.none

/-- `MaturityManager.getTestsForScenario` (lines 115-126). -/
def getTestsForScenario (data : MaturityData) (userStoryNumber : Nat)
    (scenarioId : String) : List TestEntry :=
  match alistGet data.userStories ("US" ++ natStr userStoryNumber) with
  | Option.none => []
  | some story =>
    match alistGet story.scenarios scenarioId with
    | some sc => sc.tests
    | Option.none => []

/-- `MaturityManager.getTestStatus` (lines 128-132). -/
def getTestStatus (data : MaturityData) (userStoryNumber : Nat)
    (scenarioId : String) (testName : String) : TestStatus :=
  match (getTestsForScenario data userStoryNumber scenarioId).find?
      (fun t => t.testName == testName) with
  | some t => t.status
  | Option.none => TestStatus.unknown

/-- `MaturityManager.getUserStoryMaturity` (lines 134-163), translated
loop for loop: fold the scenario levels to the lowest index, then fold in
the stored overall (`story.overall` is a non-empty string, hence always
truthy in the source). -/
def getUserStoryMaturity (data : MaturityData) (userStoryNumber : Nat) :
    MaturityLevel :=
  match alistGet data.userStories ("US" ++ natStr userStoryNumber) with
  | Option.none => MaturityLevel.none
  | some story =>
    let lowest := story.scenarios.foldl
      (fun low p => if levelIndex p.2.level < low then levelIndex p.2.level else low)
      2
    let lowest :=
      if levelIndex story.overall < lowest then levelIndex story.overall else lowest
    levelOfIndex lowest

/-- `MaturityManager.calculateOverallLevel` (lines 234-246). -/
def calculateOverallLevel (scenarios : List (String × ScenarioData)) :
    MaturityLevel :=
  levelOfIndex (scenarios.foldl
    (fun low p => if levelIndex p.2.level < low then levelIndex p.2.level else low)
    2)

/-- `MaturityManager.setScenarioMaturity` (lines 165-187), acting on the
cached record (the subsequent file write persists exactly this value). -/
def setScenarioMaturity (data : MaturityData) (userStoryNumber : Nat)
    (scenarioId : String) (level : MaturityLevel) : MaturityData :=
  let storyKey := "US" ++ natStr userStoryNumber
  let stories0 :=
    if (alistGet data.userStories storyKey).isNone then
      alistSet data.userStories storyKey
        { overall := MaturityLevel.none, scenarios := [] }
    else data.userStories
  match alistGet stories0 storyKey with
  | Option.none => { data with userStories := stories0 }
  | some story =>
    let existingTests :=
      match alistGet story.scenarios scenarioId with
      | some sc => sc.tests
      | Option.none => []
    let scenarios := alistSet story.scenarios scenarioId
      { level := level, tests := existingTests }
    let overall := calculateOverallLevel scenarios
    let stories' := alistSet stories0 storyKey
      { overall := overall, scenarios := scenarios }
    { data with userStories := stories' }

/-- `MaturityManager.setTestStatus` (lines 223-232).  The boolean records
whether the maturity file was written: the source only mutates the found
test object and calls `writeMaturityFile` when `tests.find` succeeds. -/
def setTestStatus (data : MaturityData) (userStoryNumber : Nat)
    (scenarioId : String) (testName : String) (status : TestStatus)
    (today : String) : MaturityData × Bool :=
  let tests := getTestsForScenario data userStoryNumber scenarioId
  match tests.find? (fun t => t.testName == testName) with
  | Option.none => (data, false)
  | some _ =>
    let upd : TestEntry → TestEntry :=
      fun t => { t with status := status, lastRun := some today }
    let updSc : ScenarioData → ScenarioData := fun sc =>
      { sc with tests := updateFirst (fun t => t.testName == testName) upd sc.tests }
    let updStory : UserStoryData → UserStoryData := fun story =>
      { story with scenarios := alistUpdateFirst story.scenarios scenarioId updSc }
    let stories' :=
      alistUpdateFirst data.userStories ("US" ++ natStr userStoryNumber) updStory
    ({ data with userStories := stories' }, true)

/-! ### Serialisation (`maturityDataToJson` / `jsonToMaturityData`) -/

/-- JS `parseInt` restricted to the shapes it is applied to here: skip
leading whitespace, optional sign, then leading decimal digits;
`Option.none` models `NaN`. -/
def jsParseInt (s : List Char) : Option Int :=
  let s := s.dropWhile (fun c => jsSpace c)
  let signed : Bool × List Char :=
    match s with
    | '-' :: rest => (true, rest)
    | '+' :: rest => (false, rest)
    | _ => (false, s)
  let ds := signed.2.takeWhile Char.isDigit
  if ds.isEmpty then Option.none
  else
    let v : Int := Int.ofNat (digitsToNat ds)
    some (if signed.1 then -v else v)

/-- Comparator of `maturityDataToJson` for story keys (lines 305-309):
`parseInt(key.replace('US','')) ` ascending; a `NaN` comparator result is
treated as a tie by `Array.prototype.sort`. -/
def storyKeyLe (a b : String × UserStoryData) : Bool :=
  match jsParseInt (removeFirst ("US".data) a.1.data),
        jsParseInt (removeFirst ("US".data) b.1.data) with
  | some x, some y => decide (x ≤ y)
  | _, _ => true

/-- Code-point lexicographic order on character lists, modelling
`String.prototype.localeCompare` for the ASCII identifiers used here. -/
def charListLe : List Char → List Char → Bool
  | [], _ => true
  | _ :: _, [] => false
  | a :: as, b :: bs =>
    if a.toNat < b.toNat then true
    else if b.toNat < a.toNat then false
    else charListLe as bs

/-- Comparator for scenario ids (lines 315-317). -/
def scenIdLe (a b : String × ScenarioData) : Bool :=
  charListLe a.1.data b.1.data

/-- `MaturityManager.maturityDataToJson` (lines 298-333); `now` stands
for `new Date().toISOString()`. -/
def storyToJson (p : String × UserStoryData) : String × UserStoryDataJson :=
  let sortedScenarios :=
    List.insertionSort (fun a b => scenIdLe a b) p.2.scenarios
  let scenarios := sortedScenarios.map
    (fun q => (q.1, ({ level := q.2.level, tests := q.2.tests } : ScenarioDataJson)))
  (p.1, { overall := p.2.overall, scenarios := scenarios })

def maturityDataToJson (now : String) (data : MaturityData) :
    MaturityDataJson :=
  let sortedStories :=
    List.insertionSort (fun a b => storyKeyLe a b) data.userStories
  { lastUpdated := now, userStories := sortedStories.map storyToJson }

/-- `MaturityManager.jsonToMaturityData` (lines 273-296). -/
def storyOfJson (p : String × UserStoryDataJson) : String × UserStoryData :=
  let scenarios := p.2.scenarios.map
    (fun q => (q.1, ({ level := q.2.level, tests := q.2.tests } : ScenarioData)))
  (p.1, { overall := p.2.overall, scenarios := scenarios })

def jsonToMaturityData (json : MaturityDataJson) : MaturityData :=
  { lastUpdated := some json.lastUpdated,
    userStories := json.userStories.map storyOfJson }

/-- `MaturityManager.parseMaturityFile` (lines 248-271).  `jsonFile`
models the current-format file: `some j` when `maturity.json` exists and
`JSON.parse` succeeds on it (typed as the file schema), `Option.none`
when the file is absent or unparseable; `legacyFile` models the text of
the legacy `maturity.md` when that file exists. -/
def parseLevel (value : List Char) : MaturityLevel :=
  let normalized := trimL (lowerL value)
  if normalized == "partial".data then MaturityLevel.partialL
  else if normalized == "complete".data then MaturityLevel.complete
  else MaturityLevel.none

/-- Regex `^##\s+(US\d+)` of `parseLegacyMaturityFile` (line 358). -/
def legacyStoryKey (line : List Char) : Option String :=
  match line with
  | '#' :: '#' :: rest =>
    let ws := rest.takeWhile (fun c => jsSpace c)
    if ws.isEmpty then Option.none
    else
      match rest.dropWhile (fun c => jsSpace c) with
      | 'U' :: 'S' :: rest2 =>
        let ds := rest2.takeWhile Char.isDigit
        if ds.isEmpty then Option.none
        else some (String.mk ('U' :: 'S' :: ds))
      | _ => Option.none
  | _ => Option.none

/-- Regex `^-\s+\*\*([^*]+)\*\*:\s*(\w+)` of `parseLegacyMaturityFile`
(line 372). -/
def legacyEntry (line : List Char) : Option (List Char × List Char) :=
  match line with
  | '-' :: rest =>
    let ws := rest.takeWhile (fun c => jsSpace c)
    if ws.isEmpty then Option.none
    else
      match rest.dropWhile (fun c => jsSpace c) with
      | '*' :: '*' :: rest2 =>
        let key := rest2.takeWhile (fun c => c != '*')
        if key.isEmpty then Option.none
        else
          match rest2.dropWhile (fun c => c != '*') with
          | '*' :: '*' :: ':' :: rest3 =>
            let value := (rest3.dropWhile (fun c => jsSpace c)).takeWhile
              (fun c => isWordChar c)
            if value.isEmpty then Option.none else some (key, value)
          | _ => Option.none
      | _ => Option.none
  | _ => Option.none

/-- One line of `parseLegacyMaturityFile`'s loop (lines 350-384),
threading the record and the `currentStory` key. -/
def legacyStep (st : MaturityData × Option String) (line : List Char) :
    MaturityData × Option String :=
  let data := st.1
  if startsWithL line ("lastUpdated:".data) then
    let lu := String.mk (trimL (removeFirst ("lastUpdated:".data) line))
    ({ data with lastUpdated := some lu }, st.2)
  else
    match legacyStoryKey line with
    | some key =>
      let data :=
        if (alistGet data.userStories key).isNone then
          let fresh : UserStoryData := { overall := MaturityLevel.none, scenarios := [] }
          { data with userStories := alistSet data.userStories key fresh }
        else data
      (data, some key)
    | Option.none =>
      match legacyEntry line, st.2 with
      | some (key, value), some curStory =>
        let level := parseLevel value
        let keyStr := String.mk key
        let updStory : UserStoryData → UserStoryData := fun story =>
          if lowerL key == "overall".data then { story with overall := level }
          else
            let scenarios' := alistSet story.scenarios keyStr
              { level := level, tests := [] }
            { story with scenarios := scenarios' }
        let stories' := alistUpdateFirst data.userStories curStory updStory
        ({ data with userStories := stories' }, st.2)
      | _, _ => st

/-- `MaturityManager.parseLegacyMaturityFile` (lines 335-390). -/
def parseLegacyMaturity (content : String) : MaturityData :=
  (((splitOnChar '\n' content.data).foldl legacyStep
      ({ lastUpdated := Option.none, userStories := [] }, Option.none))).1

def parseMaturityFile (jsonFile : Option MaturityDataJson)
    (legacyFile : Option String) : MaturityData :=
  match jsonFile with
  | some j => jsonToMaturityData j
  | Option.none =>
    match legacyFile with
    | some c => parseLegacyMaturity c
    | Option.none => { lastUpdated := Option.none, userStories := [] }

/-! ## Test linker

Embedded from `src/linkers/testLinker.ts`.  An `IntegrationTest` mirrors
`src/types.ts` lines 38-47 (the `specAnnotation` field is named
`specAnnot` here because of Lean-side naming constraints; the scenario
back-reference, set by the caller and never by the linker, is omitted). -/

structure IntegrationTest where
  filePath : String
  fileName : String
  testName : Option String := Option.none
  line : Option Nat := Option.none
  specAnnot : Option String := Option.none
  passStatus : Option TestStatus := Option.none
  passDate : Option String := Option.none
  deriving DecidableEq, Repr

/-- First match of the (case-sensitive) regex `/US(\d+)-AS(\d+)/` of
`findTestsForScenario` (testLinker.ts line 49), with both captures run
through `parseInt`. -/
def matchUSASToken : List Char → Option (Nat × Nat)
  | [] => Option.none
  | c :: cs =>
    match c :: cs with
    | 'U' :: 'S' :: rest =>
      let d1 := rest.takeWhile Char.isDigit
      let tail1 := rest.dropWhile Char.isDigit
      if d1.isEmpty then matchUSASToken cs
      else
        match tail1 with
        | '-' :: 'A' :: 'S' :: rest2 =>
          let d2 := rest2.takeWhile Char.isDigit
          if d2.isEmpty then matchUSASToken cs
          else some (digitsToNat d1, digitsToNat d2)
        | _ => matchUSASToken cs
    | _ => matchUSASToken cs

/-- The case-insensitive test-name pattern
`` `US${storyNumber}-AS${scenarioNumber}|AS${scenarioNumber}` `` of
`findTestsForScenario` (line 56). -/
def scenarioNamePattern (storyNumber scenarioNumber : Nat) (name : List Char) :
    Bool :=
  let hay := lowerL name
  containsL hay (lowerL (("US".data) ++ natToChars storyNumber ++ ("-AS".data)
      ++ natToChars scenarioNumber)) ||
  containsL hay (lowerL (("AS".data) ++ natToChars scenarioNumber))

/-- The filter predicate of `TestLinker.findTestsForScenario` (lines
47-61), translated branch for branch: when the annotation match fails (or
its scenario number differs) control falls through to the test-name
check. -/
def scenarioFilterKeep (storyNumber scenarioNumber : Nat)
    (t : IntegrationTest) : Bool :=
  let nameFallback : Bool :=
    match t.testName with
    | some n => scenarioNamePattern storyNumber scenarioNumber n.data
    | Option.none => false
  match t.specAnnot with
  | some ann =>
    match matchUSASToken ann.data with
    | some r => if r.2 == scenarioNumber then true else nameFallback
    | Option.none => nameFallback
  | Option.none => nameFallback

/-- `TestLinker.findTestsForScenario` (lines 38-62) as a function of the
story's test list produced by `findTestsForStory`. -/
def findTestsForScenario (storyNumber scenarioNumber : Nat)
    (storyTests : List IntegrationTest) : List IntegrationTest :=
  storyTests.filter (scenarioFilterKeep storyNumber scenarioNumber)

/-- Does `s` start with `tok` followed by an admissible continuation
(end of string if `allowEnd`, else a first character satisfying `f`)? -/
def tokenAt (tok : List Char) (f : Char → Bool) (allowEnd : Bool)
    (s : List Char) : Bool :=
  startsWithL s tok &&
    (match s.drop tok.length with
     | [] => allowEnd
     | c :: _ => f c)

/-- Unanchored search for `tokenAt` at any position. -/
def containsToken (tok : List Char) (f : Char → Bool) (allowEnd : Bool) :
    List Char → Bool
  | [] => tokenAt tok f allowEnd []
  | c :: cs => tokenAt tok f allowEnd (c :: cs) || containsToken tok f allowEnd cs

/-- `TestLinker.matchesUserStory` (lines 159-168): the four
case-insensitive file-name patterns. -/
def matchesUserStory (storyNumber : Nat) (fileName : String) : Bool :=
  let f := lowerL fileName.data
  let ns := natToChars storyNumber
  containsToken (("us".data) ++ ns) (fun c => c == '-') true f ||
  containsToken (("us".data) ++ ns) (fun c => !c.isDigit) false f ||
  containsToken (("user-story-".data) ++ ns) (fun c => !c.isDigit) false f ||
  containsToken (("story".data) ++ ns) (fun c => !c.isDigit) false f

/-- The anchored pattern `` `^us${storyNumber}(-|$)` `` (line 120). -/
def anchoredUsMatch (storyNumber : Nat) (fileName : String) : Bool :=
  tokenAt (("us".data) ++ natToChars storyNumber) (fun c => c == '-') true
    (lowerL fileName.data)

/-- The sort comparator of `findTestFileForStory` (lines 115-131) as a
boolean "compares less-or-equal": anchored matches first, ties broken by
`localeCompare` (modelled as code-point order). -/
def fileLe (storyNumber : Nat) (a b : String) : Bool :=
  let ma := anchoredUsMatch storyNumber a
  let mb := anchoredUsMatch storyNumber b
  if ma && !mb then true
  else if !ma && mb then false
  else charListLe a.data b.data

/-- `TestLinker.findTestFileForStory` (lines 105-141), with test files
represented by their base names (the comparator and the story matcher
both act on `path.basename`). -/
def findTestFileForStory (testFiles : List String) (storyNumber : Nat) :
    Option String :=
  let sorted := List.insertionSort (fun a b => fileLe storyNumber a b) testFiles
  sorted.find? (fun f => matchesUserStory storyNumber f)

/-! ## Specification-document parser

Embedded from `src/parsers/specParser.ts` (`SpecParser`).  The entity
shapes mirror `src/types.ts` lines 3-36; the mutable back-references
(`userStory`, `featureSpec`) are omitted, keeping the ownership tree. -/

structure AcceptanceScenario where
  number : Nat
  id : String
  given_ : String
  when_ : String
  then_ : String
  line : Nat
  linkedTests : List IntegrationTest := []
  deriving DecidableEq, Repr

structure UserStory where
  number : Nat
  title : String
  priority : String
  startLine : Nat
  endLine : Nat
  description : String
  whyPriority : Option String := Option.none
  independentTest : Option String := Option.none
  acceptanceScenarios : List AcceptanceScenario := []
  deriving DecidableEq, Repr

structure FeatureSpec where
  path : String
  name : String
  displayName : String
  number : Nat
  specFilePath : String
  planFilePath : Option String
  userStories : List UserStory
  lastModified : Nat
  deriving DecidableEq, Repr

/-- Continuation-passing model of a lazy regex group `(.+?)` followed by
the literal `sep`: captures the shortest non-empty prefix before an
occurrence of `sep` whose remainder satisfies `k`, retrying at the next
position (regex backtracking) when `k` fails. -/
def lazyGroupGo {α : Type} (sep : List Char) (k : List Char → Option α)
    (accRev : List Char) : List Char → Option (List Char × α)
  | [] => Option.none
  | c :: cs =>
    match
      (if startsWithL (c :: cs) sep then
        match k ((c :: cs).drop sep.length) with
        | some a => some (accRev.reverse, a)
        | Option.none => Option.none
      else Option.none) with
    | some r => some r
    | Option.none => lazyGroupGo sep k (c :: accRev) cs

def lazyGroup {α : Type} (sep : List Char) (k : List Char → Option α) :
    List Char → Option (List Char × α)
  | [] => Option.none
  | c :: cs => lazyGroupGo sep k [c] cs

/-- Shared tail ` (.+?), \*\*When\*\* (.+?), \*\*Then\*\* (.+)` of the two
scenario patterns: the text after `**Given** `. -/
def parseGWT (s : List Char) : Option (String × String × String) :=
  match lazyGroup (", **When** ".data)
      (fun s2 => lazyGroup (", **Then** ".data)
        (fun s3 => if s3.isEmpty then Option.none else some (String.mk s3)) s2)
      s with
  | some (g, (w, t)) => some (String.mk g, String.mk w, t)
  | Option.none => Option.none

/-- The lazy title group of the story-heading regex: shortest non-empty
prefix before ` \(Priority: (P\d)\)`. -/
def prioCheck (s : List Char) : Option (List Char) :=
  if startsWithL s (" (Priority: P".data) then
    match s.drop 13 with
    | d :: ')' :: _ => if d.isDigit then some ['P', d] else Option.none
    | _ => Option.none
  else Option.none

/-- Regex `^### User Story (\d+) - (.+?) \(Priority: (P\d)\)`
(`specParser.ts` line 6): returns (story number, title, priority). -/
def matchUserStoryHeading (line : List Char) : Option (Nat × String × String) :=
  if startsWithL line ("### User Story ".data) then
    let rest := line.drop ("### User Story ".data).length
    let ds := rest.takeWhile Char.isDigit
    let rest1 := rest.dropWhile Char.isDigit
    if ds.isEmpty then Option.none
    else if startsWithL rest1 (" - ".data) then
      let body := rest1.drop 3
      match lazyTitle body with
      | some (title, prio) =>
        some (digitsToNat ds, String.mk title, String.mk prio)
      | Option.none => Option.none
    else Option.none
  else Option.none
where
  lazyTitle : List Char → Option (List Char × List Char)
    | [] => Option.none
    | c :: cs => go [c] cs
  go (accRev : List Char) : List Char → Option (List Char × List Char)
    | [] => Option.none
    | c :: cs =>
      match prioCheck (c :: cs) with
      | some p => some (accRev.reverse, p)
      | Option.none => go (c :: accRev) cs

/-- Regex `^(\d+)\. \*\*Given\*\* (.+?), \*\*When\*\* (.+?), \*\*Then\*\* (.+)`
(line 8): implicit-identifier scenario lines. -/
def matchScenarioImplicit (line : List Char) :
    Option (List Char × String × String × String) :=
  let ds := line.takeWhile Char.isDigit
  let rest := line.dropWhile Char.isDigit
  if ds.isEmpty then Option.none
  else if startsWithL rest (". **Given** ".data) then
    match parseGWT (rest.drop (". **Given** ".data).length) with
    | some gwt => some (ds, gwt)
    | Option.none => Option.none
  else Option.none

/-- Regex
`^(\d+[a-z]?)\. \*\*(US\d+-AS\d+[a-z]?)\*\*: \*\*Given\*\* ...` (line 11):
explicit-identifier scenario lines, sub-letter suffixes allowed.  Returns
(number capture, identifier capture, given, when, then). -/
def matchScenarioWithId (line : List Char) :
    Option (List Char × String × String × String × String) :=
  let ds := line.takeWhile Char.isDigit
  let rest := line.dropWhile Char.isDigit
  if ds.isEmpty then Option.none
  else
    let numCap : List Char × List Char :=
      match rest with
      | c :: cs => if isAsciiLower c then (ds ++ [c], cs) else (ds, rest)
      | [] => (ds, rest)
    let rest1 := numCap.2
    if startsWithL rest1 (". **US".data) then
      let afterUs := rest1.drop (". **US".data).length
      let ds1 := afterUs.takeWhile Char.isDigit
      let rest2 := afterUs.dropWhile Char.isDigit
      if ds1.isEmpty then Option.none
      else if startsWithL rest2 ("-AS".data) then
        let afterAs := rest2.drop 3
        let ds2 := afterAs.takeWhile Char.isDigit
        let rest3 := afterAs.dropWhile Char.isDigit
        if ds2.isEmpty then Option.none
        else
          let idCap : List Char × List Char :=
            match rest3 with
            | c :: cs => if isAsciiLower c then
                (('U' :: 'S' :: ds1) ++ ('-' :: 'A' :: 'S' :: ds2) ++ [c], cs)
              else (('U' :: 'S' :: ds1) ++ ('-' :: 'A' :: 'S' :: ds2), rest3)
            | [] => (('U' :: 'S' :: ds1) ++ ('-' :: 'A' :: 'S' :: ds2), rest3)
          if startsWithL idCap.2 ("**: **Given** ".data) then
            match parseGWT (idCap.2.drop ("**: **Given** ".data).length) with
            | some gwt => some (numCap.1, String.mk idCap.1, gwt)
            | Option.none => Option.none
          else Option.none
      else Option.none
    else Option.none

/-- Regex `^\*\*Why this priority\*\*: (.+)` (line 12). -/
def matchWhyPriority (line : List Char) : Option String :=
  if startsWithL line ("**Why this priority**: ".data) then
    let rest := line.drop ("**Why this priority**: ".data).length
    if rest.isEmpty then Option.none else some (String.mk rest)
  else Option.none

/-- Regex `^\*\*Independent Test\*\*: (.+)` (line 13). -/
def matchIndependentTest (line : List Char) : Option String :=
  if startsWithL line ("**Independent Test**: ".data) then
    let rest := line.drop ("**Independent Test**: ".data).length
    if rest.isEmpty then Option.none else some (String.mk rest)
  else Option.none

/-- `SpecParser.parseScenarioNumber` (lines 223-227). -/
def parseScenarioNumber (numStr : List Char) : Nat :=
  let ds := numStr.takeWhile Char.isDigit
  if ds.isEmpty then 0 else digitsToNat ds

/-- The loop state of `SpecParser.parseSpecFile` (lines 33-35):
completed stories, the story under construction, `currentStoryEndLine`
and the `inAcceptanceScenarios` flag. -/
structure ParserState where
  stories : List UserStory
  cur : Option UserStory
  curEnd : Nat
  inAS : Bool
  deriving Repr

def initState : ParserState :=
  { stories := [], cur := Option.none, curEnd := 0, inAS := false }

/-- One iteration of the line loop of `parseSpecFile` (lines 37-123),
branch for branch. -/
def stepLine (st : ParserState) (line : List Char) (lineNum : Nat) :
    ParserState :=
  match matchUserStoryHeading line with
  | some (n, title, prio) =>
    let stories :=
      match st.cur with
      | some c => st.stories ++ [{ c with endLine := st.curEnd }]
      | Option.none => st.stories
    { stories := stories,
      cur := some { number := n, title := title, priority := prio,
                    startLine := lineNum, endLine := lineNum,
                    description := "", acceptanceScenarios := [] },
      curEnd := st.curEnd,
      inAS := false }
  | Option.none =>
    match st.cur with
    | Option.none => st
    | some c =>
      let st := { st with curEnd := lineNum }
      match matchWhyPriority line with
      | some why => { st with cur := some { c with whyPriority := some why } }
      | Option.none =>
      match matchIndependentTest line with
      | some it => { st with cur := some { c with independentTest := some it } }
      | Option.none =>
      if containsL line ("**Acceptance Scenarios".data) then
        { st with inAS := true }
      else if startsWithL line ("---".data) then
        { st with inAS := false }
      else if st.inAS then
        match matchScenarioWithId line with
        | some (numStr, id, g, w, t) =>
          let sc : AcceptanceScenario :=
            { number := parseScenarioNumber numStr, id := id,
              given_ := g, when_ := w, then_ := t, line := lineNum }
          let c' := { c with acceptanceScenarios := c.acceptanceScenarios ++ [sc] }
          { st with cur := some c' }
        | Option.none =>
          match matchScenarioImplicit line with
          | some (ds, g, w, t) =>
            let sc : AcceptanceScenario :=
              { number := digitsToNat ds,
                id := "US" ++ natStr c.number ++ "-AS" ++ String.mk ds,
                given_ := g, when_ := w, then_ := t, line := lineNum }
            let c' := { c with acceptanceScenarios := c.acceptanceScenarios ++ [sc] }
            { st with cur := some c' }
          | Option.none => st
      else if c.description == "" && !(trimL line).isEmpty
          && !startsWithL line ("**".data) then
        { st with cur := some { c with description := String.mk (trimL line) } }
      else st

/-- `SpecParser.formatDisplayName` (lines 205-211). -/
def stripNumPrefixDash (s : List Char) : List Char :=
  let ds := s.takeWhile Char.isDigit
  if ds.isEmpty then s
  else
    match s.dropWhile Char.isDigit with
    | '-' :: rest => rest
    | _ => s

def capitalizeWord (w : List Char) : List Char :=
  match w with
  | [] => []
  | c :: cs => c.toUpper :: cs

def formatDisplayName (dirName : String) : String :=
  String.intercalate " "
    (((splitOnChar '-' (stripNumPrefixDash dirName.data)).map
        (fun w => String.mk (capitalizeWord w))))

/-- `SpecParser.extractNumber` (lines 213-216). -/
def extractNumber (dirName : String) : Nat :=
  let ds := dirName.data.takeWhile Char.isDigit
  if ds.isEmpty then 0
  else
    match dirName.data.dropWhile Char.isDigit with
    | '-' :: _ => digitsToNat ds
    | _ => 0

/-- The pure body of `SpecParser.parseSpecFile` (lines 15-135) on the
document text; the file-system inputs (`statSync`, `findPlanFile`,
directory names derived from the path) are passed as parameters. -/
def parseSpecContent (filePath dirPath dirName : String)
    (planFilePath : Option String) (mtime : Nat) (content : String) :
    FeatureSpec :=
  let lines := splitOnChar '\n' content.data
  let st := (lines.enum).foldl
    (fun st p => stepLine st p.2 (p.1 + 1)) initState
  let stories :=
    match st.cur with
    | some c => st.stories ++ [{ c with endLine := st.curEnd }]
    | Option.none => st.stories
  { path := dirPath, name := dirName,
    displayName := formatDisplayName dirName,
    number := extractNumber dirName,
    specFilePath := filePath, planFilePath := planFilePath,
    userStories := stories, lastModified := mtime }

/-- `parseSpecFile` including its failure channel: the whole body is
wrapped in try/catch and only the initial `fs.readFileSync` can throw, so
the input is `some content` on a successful read and `Option.none` on an
I/O failure, which is the only case producing `null`. -/
def parseSpecFromDisk (filePath dirPath dirName : String)
    (planFilePath : Option String) (mtime : Nat) (content : Option String) :
    Option FeatureSpec :=
  content.map (parseSpecContent filePath dirPath dirName planFilePath mtime)

/-! ## Metadata store

Embedded from `src/helpers/specMetadataManager.ts`. -/

structure SpecMetadata where
  testDirectory : Option String := Option.none
  deriving DecidableEq, Repr

/-- The frontmatter regex `^---\n([\s\S]*?)\n---` (lines 55 and 83):
`some (yaml, rest)` when the document starts with `---\n`, where `yaml`
is the (lazy, possibly empty) first group and `rest` the text after the
closing `\n---`. -/
def frontmatterSplit (content : List Char) :
    Option (List Char × List Char) :=
  if startsWithL content ("---\n".data) then
    findSub ("\n---".data) (content.drop 4)
  else Option.none

/-- One line of the simple YAML loop (lines 64-74): regex
`^(\w+):\s*(.+)$`, value trimmed. -/
def yamlKeyValue (line : List Char) : Option (List Char × List Char) :=
  let w := line.takeWhile (fun c => isWordChar c)
  if w.isEmpty then Option.none
  else
    match line.dropWhile (fun c => isWordChar c) with
    | ':' :: rest =>
      if rest.isEmpty then Option.none
      else
        let ws := rest.takeWhile (fun c => jsSpace c)
        let val := rest.dropWhile (fun c => jsSpace c)
        if val.isEmpty then
          -- `\s*` backtracks one character so that `(.+)` is non-empty
          some (w, [ws.getLastD ' '])
        else some (w, val)
    | _ => Option.none

/-- `SpecMetadataManager.parseYamlFrontmatter` (lines 54-77). -/
def parseYamlFrontmatter (content : List Char) : SpecMetadata :=
  match frontmatterSplit content with
  | Option.none => {}
  | some (yaml, _) =>
    (splitOnChar '\n' yaml).foldl
      (fun md line =>
        match yamlKeyValue line with
        | some (key, value) =>
          if key == "testDirectory".data then
            { md with testDirectory := some (String.mk (trimL value)) }
          else md
        | Option.none => md)
      {}

/-- `$`-expansion of a JS `String.prototype.replace` replacement string
(the regexes here have no capture groups, so only `$$`, `` $` ``, `$&`
and the primed dollar stand for anything). -/
def expandRepl (matched before after : List Char) : List Char → List Char
  | [] => []
  | c :: rest =>
    if c == '$' then
      match rest with
      | [] => [c]
      | d :: rest2 =>
        if d == '$' then '$' :: expandRepl matched before after rest2
        else if d == '&' then matched ++ expandRepl matched before after rest2
        else if d == '\x60' then before ++ expandRepl matched before after rest2
        else if d == '\x27' then after ++ expandRepl matched before after rest2
        else c :: d :: expandRepl matched before after rest2
    else c :: expandRepl matched before after rest

/-- `SpecMetadataManager.updateYamlFrontmatter` (lines 82-108).  The
`if (metadata.testDirectory)` test is JS truthiness, so an empty string
behaves like absence. -/
def updateYamlFrontmatter (content : List Char) (metadata : SpecMetadata) :
    List Char :=
  let fm := frontmatterSplit content
  let yamlLines : List (List Char) :=
    match metadata.testDirectory with
    | some v => if v.data.isEmpty then [] else [("testDirectory: ".data) ++ v.data]
    | Option.none => []
  match yamlLines with
  | [] =>
    match fm with
    | some (yaml, rest) =>
      -- `content.replace(/^---\n[\s\S]*?\n---\n?/, '')`
      let _ := yaml
      match rest with
      | '\n' :: rest' => rest'
      | _ => rest
    | Option.none => content
  | line :: _ =>
    let newFrontmatter := ("---\n".data) ++ line ++ ("\n---".data)
    match fm with
    | some (yaml, rest) =>
      -- `content.replace` of the frontmatter match by `newFrontmatter`:
      -- the match is at the start, so the prematch is empty.
      let matched := ("---\n".data) ++ yaml ++ ("\n---".data)
      expandRepl matched [] rest newFrontmatter ++ rest
    | Option.none => newFrontmatter ++ ('\n' :: content)

/-- `readMetadata` after `writeMetadata` on an existing file: the write
stores `updateYamlFrontmatter content metadata` and the read parses it
back (specMetadataManager.ts lines 12-32). -/
def readAfterWrite (content : List Char) (metadata : SpecMetadata) :
    SpecMetadata :=
  parseYamlFrontmatter (updateYamlFrontmatter content metadata)

/-! ## Specification-side definitions

These follow the words of the specification (not the code) and are
compared with the embedded functions in the refinement theorems below. -/

/-- Minimum of two maturity levels under `none < partial < complete`. -/
def minLevel (a b : MaturityLevel) : MaturityLevel :=
  if levelIndex a ≤ levelIndex b then a else b

/-- Minimum of all scenario levels of a story (the minimum of the empty
family is the top element `complete`). -/
def scenariosMinLevel (scenarios : List (String × ScenarioData)) :
    MaturityLevel :=
  scenarios.foldr (fun p m => minLevel p.2.level m) MaturityLevel.complete

/-- The specification's aggregation law: the displayed user-story level
is `min(storedOverall, min of all scenario levels)`, and `none` for an
absent story key. -/
def userStoryMaturitySpec (data : MaturityData) (n : Nat) : MaturityLevel :=
  match alistGet data.userStories ("US" ++ natStr n) with
  | Option.none => MaturityLevel.none
  | some story => minLevel story.overall (scenariosMinLevel story.scenarios)

/-- Closed form of one `setScenarioMaturity` call, used to reason about
repeated calls: the story entry is rewritten at the story key with the
requested scenario level, preserved tests and recomputed overall. -/
def setScenarioNF (data : MaturityData) (n : Nat) (scenId : String)
    (lvl : MaturityLevel) : MaturityData :=
  let key := "US" ++ natStr n
  let scens0 :=
    match alistGet data.userStories key with
    | some st => st.scenarios
    | Option.none => []
  let tests :=
    match alistGet scens0 scenId with
    | some sc => sc.tests
    | Option.none => []
  let scenarios := alistSet scens0 scenId { level := lvl, tests := tests }
  let story : UserStoryData :=
    { overall := calculateOverallLevel scenarios, scenarios := scenarios }
  { data with userStories := alistSet data.userStories key story }

/-- Does the test's annotation carry a `US<n>-AS<m>` token whose scenario
number is `scenarioNumber`?  (The story part of the token is not
inspected by the code.) -/
def annotMatches (scenarioNumber : Nat) (t : IntegrationTest) : Bool :=
  match t.specAnnot with
  | some ann =>
    match matchUSASToken ann.data with
    | some r => r.2 == scenarioNumber
    | Option.none => false
  | Option.none => false

/-- Does the test's extracted name match the case-insensitive pattern
`US{story}-AS{scenario}|AS{scenario}`? -/
def nameMatches (storyNumber scenarioNumber : Nat) (t : IntegrationTest) :
    Bool :=
  match t.testName with
  | some n => scenarioNamePattern storyNumber scenarioNumber n.data
  | Option.none => false

/-! ## Concrete documents and records used by the closed theorems -/

/-- A test whose annotation names scenario `US1-AS3` but whose name
matches the `US1-AS2` pattern. -/
def cexTest : IntegrationTest :=
  { filePath := "tests/e2e/a.spec.ts", fileName := "a.spec.ts",
    testName := some "US1-AS2 renders the page",
    specAnnot := some "001-x/US1-AS3" }

/-- Two adjacent story headings: the first story's section is empty. -/
def cexDoc : String :=
  "### User Story 1 - A (Priority: P1)\n### User Story 2 - B (Priority: P1)"

/-- A well-formed one-story document used to instantiate the parser
invariant. -/
def demoDoc : String :=
  "### User Story 1 - T (Priority: P1)\n**Acceptance Scenarios**:\n1. **Given** a, **When** b, **Then** c"

def demoScenario : AcceptanceScenario :=
  { number := 1, id := "US1-AS1", given_ := "a", when_ := "b", then_ := "c",
    line := 3, linkedTests := [] }

def demoStory : UserStory :=
  { number := 1, title := "T", priority := "P1", startLine := 1, endLine := 3,
    description := "", whyPriority := Option.none,
    independentTest := Option.none, acceptanceScenarios := [demoScenario] }

/-- The two-line sub-lettering document of the specification's testable
property. -/
def subLetterDoc : String :=
  "### User Story 1 - T (Priority: P1)\n**Acceptance Scenarios**:\n1. **Given** a, **When** b, **Then** X\n1a. **US1-AS1a**: **Given** a, **When** b, **Then** Y"

/-- A document with no recognisable structure. -/
def malformedDoc : String :=
  "not a spec at all\nrandom ### stuff\n1. a bullet with no grammar\n"

/-- The line-anchor property of one parsed story: every owned scenario
lies strictly after the story heading and no later than the recorded end
line. -/
def StoryOk (U : UserStory) : Prop :=
  ∀ s ∈ U.acceptanceScenarios, U.startLine < s.line ∧ s.line ≤ U.endLine

/-- Loop invariant of the parser after the first `i` lines. -/
def ParseInv (i : Nat) (st : ParserState) : Prop :=
  st.curEnd ≤ i
  ∧ (∀ U ∈ st.stories, StoryOk U)
  ∧ (∀ c, st.cur = some c →
      c.startLine ≤ i
        ∧ ∀ s ∈ c.acceptanceScenarios,
            c.startLine < s.line ∧ s.line ≤ st.curEnd)

/-! ## Lemmas about the association-list model -/

theorem alistGet_set_self {α : Type} (k : String) (v : α) :
    ∀ (m : List (String × α)), alistGet (alistSet m k v) k = some v := by
  intro m
  induction m with
  | nil => simp [alistGet, alistSet]
  | cons p rest ih =>
    obtain ⟨k', v'⟩ := p
    simp only [alistSet]
    by_cases h : k' == k
    · simp [alistGet, h]
    · simpa [alistGet, List.find?, h] using ih

theorem alistSet_set_self {α : Type} (k : String) (v w : α) :
    ∀ (m : List (String × α)), alistSet (alistSet m k v) k w = alistSet m k w := by
  intro m
  induction m with
  | nil => simp [alistSet]
  | cons p rest ih =>
    obtain ⟨k', v'⟩ := p
    simp only [alistSet]
    by_cases h : k' == k
    · simp [alistSet, h]
    · simp [alistSet, h, ih]

theorem alistSet_of_get {α : Type} (k : String) (v : α) :
    ∀ (m : List (String × α)), alistGet m k = some v → alistSet m k v = m := by
  intro m
  induction m with
  | nil => intro h; simp [alistGet] at h
  | cons p rest ih =>
    obtain ⟨k', v'⟩ := p
    intro h
    by_cases hk : k' == k
    · have : v' = v := by
        simpa [alistGet, List.find?, hk] using h
      simp [alistSet, hk, this]
    · have := ih (by simpa [alistGet, List.find?, hk] using h)
      simp [alistSet, hk, this]

theorem alistGet_updateFirst {α : Type} (k : String) (f : α → α) :
    ∀ (m : List (String × α)),
      alistGet (alistUpdateFirst m k f) k = (alistGet m k).map f := by
  intro m
  induction m with
  | nil => simp [alistGet, alistUpdateFirst]
  | cons p rest ih =>
    obtain ⟨k', v'⟩ := p
    simp only [alistUpdateFirst]
    by_cases h : k' == k
    · simp [alistGet, h]
    · simpa [alistGet, List.find?, h] using ih

theorem find?_updateFirst {α : Type} (p : α → Bool) (f : α → α)
    (hpf : ∀ x, p (f x) = p x) :
    ∀ (l : List α),
      List.find? p (updateFirst p f l) = (List.find? p l).map f := by
  intro l
  induction l with
  | nil => simp [updateFirst]
  | cons x xs ih =>
    by_cases h : p x
    · simp [updateFirst, h, List.find?_cons_of_pos, hpf]
    · simp only [updateFirst, h]
      simp only [Bool.false_eq_true, if_false]
      rw [List.find?_cons_of_neg _ (by simp [h]),
        List.find?_cons_of_neg _ (by simp [h]), ih]

/-! ## Lemmas about maturity levels -/

theorem levelOfIndex_levelIndex : ∀ a, levelOfIndex (levelIndex a) = a := by
  intro a; cases a <;> rfl

theorem levelIndex_minLevel (a b : MaturityLevel) :
    levelIndex (minLevel a b) = Nat.min (levelIndex a) (levelIndex b) := by
  cases a <;> cases b <;> decide

theorem levelOfIndex_min (a b : MaturityLevel) :
    levelOfIndex (Nat.min (levelIndex a) (levelIndex b)) = minLevel a b := by
  cases a <;> cases b <;> decide

/-- Reassociation of the source's running-minimum `foldl` into a `foldr`. -/
theorem foldr_natMin_min (g : String × ScenarioData → Nat)
    (b : Nat) :
    ∀ (l : List (String × ScenarioData)) (a : Nat),
      l.foldr (fun p m => Nat.min (g p) m) (Nat.min b a)
        = Nat.min b (l.foldr (fun p m => Nat.min (g p) m) a) := by
  intro l
  induction l with
  | nil => intro a; rfl
  | cons x xs ih =>
    intro a
    simp only [List.foldr_cons, ih a, Nat.min_left_comm]

theorem foldl_lowest_eq_foldr (g : String × ScenarioData → Nat) :
    ∀ (l : List (String × ScenarioData)) (acc : Nat),
      l.foldl (fun low p => if g p < low then g p else low) acc
        = l.foldr (fun p m => Nat.min (g p) m) acc := by
  intro l
  induction l with
  | nil => intro acc; rfl
  | cons x xs ih =>
    intro acc
    have hstep : (if g x < acc then g x else acc) = Nat.min (g x) acc := by
      simp only [Nat.min_def]; split <;> split <;> omega
    simp only [List.foldl_cons, List.foldr_cons, hstep, ih,
      foldr_natMin_min]

theorem levelIndex_scenariosMinLevel :
    ∀ (l : List (String × ScenarioData)),
      levelIndex (scenariosMinLevel l)
        = l.foldr (fun p m => Nat.min (levelIndex p.2.level) m) 2 := by
  intro l
  induction l with
  | nil => rfl
  | cons x xs ih =>
    simp only [scenariosMinLevel, List.foldr_cons] at *
    rw [levelIndex_minLevel, ih]

/-! ## Claim theorems -/

/-- C1: for every maturity record and story number, the computed
user-story maturity equals the minimum, under `none < partial <
complete`, of the stored overall level and the minimum of all scenario
levels; an absent story key yields `none`. -/
theorem getUserStoryMaturity_eq_min (data : MaturityData) (n : Nat) :
    getUserStoryMaturity data n = userStoryMaturitySpec data n := by
  unfold getUserStoryMaturity userStoryMaturitySpec
  cases h : alistGet data.userStories ("US" ++ natStr n) with
  | none => rfl
  | some story =>
    simp only
    rw [foldl_lowest_eq_foldr (fun p => levelIndex p.2.level),
      ← levelIndex_scenariosMinLevel]
    have hstep : (if levelIndex story.overall
          < levelIndex (scenariosMinLevel story.scenarios)
        then levelIndex story.overall
        else levelIndex (scenariosMinLevel story.scenarios))
        = Nat.min (levelIndex story.overall)
            (levelIndex (scenariosMinLevel story.scenarios)) := by
      simp only [Nat.min_def]; split <;> split <;> omega
    rw [hstep, levelOfIndex_min]

/-- The filter predicate of `findTestsForScenario` is the disjunction of
the annotation check and the name fallback. -/
theorem scenarioFilterKeep_eq (s m : Nat) (t : IntegrationTest) :
    scenarioFilterKeep s m t = (annotMatches m t || nameMatches s m t) := by
  unfold scenarioFilterKeep annotMatches nameMatches
  cases t.specAnnot with
  | none => simp
  | some ann =>
    cases hm : matchUSASToken ann.data with
    | none => simp [hm]
    | some r =>
      by_cases h : r.2 == m
      · simp [hm, h]
      · simp [hm, h]

/-- C2 (amended): a test is kept by the scenario filter iff it belongs to
the story list and either its annotation carries a `US<n>-AS<m>` token
with `m` equal to the requested scenario number (the story part of the
token is ignored), or its extracted name matches the case-insensitive
`US{S}-AS{M}|AS{M}` pattern; the name fallback applies to annotated tests
whose annotation does not match, not only to unannotated ones. -/
theorem findTestsForScenario_mem (storyNumber scenarioNumber : Nat)
    (storyTests : List IntegrationTest) (t : IntegrationTest) :
    t ∈ findTestsForScenario storyNumber scenarioNumber storyTests
      ↔ t ∈ storyTests
        ∧ (annotMatches scenarioNumber t = true
            ∨ nameMatches storyNumber scenarioNumber t = true) := by
  simp [findTestsForScenario, List.mem_filter, scenarioFilterKeep_eq]

/-- C2 (counterexample to the claim as stated): a test whose annotation
does not contain the `US1-AS2` token is nevertheless kept when filtering
story 1 for scenario 2, via the test-name heuristic. -/
theorem findTestsForScenario_cex :
    findTestsForScenario 1 2 [cexTest] = [cexTest]
      ∧ cexTest.specAnnot = some "001-x/US1-AS3"
      ∧ containsL ("001-x/US1-AS3".data) ("US1-AS2".data) = false := by
  refine ⟨by decide, rfl, by decide⟩

/-- `setScenarioMaturity` computes the closed form `setScenarioNF`. -/
theorem setScenarioMaturity_eq_nf (data : MaturityData) (n : Nat)
    (scenId : String) (lvl : MaturityLevel) :
    setScenarioMaturity data n scenId lvl = setScenarioNF data n scenId lvl := by
  cases h : alistGet data.userStories ("US" ++ natStr n) with
  | none =>
    simp only [setScenarioMaturity, setScenarioNF, h, Option.isNone_none,
      if_true, alistGet_set_self, alistSet_set_self]
  | some story0 =>
    simp only [setScenarioMaturity, setScenarioNF, h, Option.isNone_some,
      Bool.false_eq_true, if_false]

/-- C5: setting the same scenario level twice yields the same record, and
hence a persisted file whose parsed content agrees with a single call on
everything except possibly `lastUpdated`. -/
theorem setScenarioMaturity_idem (data : MaturityData) (n : Nat)
    (scenId : String) (lvl : MaturityLevel) (t1 t2 : String) :
    setScenarioMaturity (setScenarioMaturity data n scenId lvl) n scenId lvl
        = setScenarioMaturity data n scenId lvl
      ∧ (maturityDataToJson t1
          (setScenarioMaturity (setScenarioMaturity data n scenId lvl)
            n scenId lvl)).userStories
        = (maturityDataToJson t2
            (setScenarioMaturity data n scenId lvl)).userStories := by
  have hidem : setScenarioMaturity (setScenarioMaturity data n scenId lvl)
      n scenId lvl = setScenarioMaturity data n scenId lvl := by
    rw [setScenarioMaturity_eq_nf, setScenarioMaturity_eq_nf]
    simp only [setScenarioNF, alistGet_set_self, alistSet_set_self]
  exact ⟨hidem, by rw [hidem]; rfl⟩

/-- C7: with neither maturity-file format present every query returns its
default (`none` / `unknown`), and a single `setScenarioMaturity` call
starting from that absent state produces a record that, serialised and
re-parsed, reports exactly the level just set for the scenario and that
same level as the story's overall. -/
theorem maturity_absent_defaults (n : Nat) (scenId testName now : String)
    (lvl : MaturityLevel) :
    getScenarioMaturity (parseMaturityFile Option.none Option.none) n scenId
        = MaturityLevel.none
      ∧ getUserStoryMaturity (parseMaturityFile Option.none Option.none) n
        = MaturityLevel.none
      ∧ getTestStatus (parseMaturityFile Option.none Option.none) n scenId
          testName = TestStatus.unknown
      ∧ getScenarioMaturity (jsonToMaturityData (maturityDataToJson now
          (setScenarioMaturity (parseMaturityFile Option.none Option.none)
            n scenId lvl))) n scenId = lvl
      ∧ getUserStoryMaturity (jsonToMaturityData (maturityDataToJson now
          (setScenarioMaturity (parseMaturityFile Option.none Option.none)
            n scenId lvl))) n = lvl := by
  refine ⟨rfl, rfl, rfl, ?_, ?_⟩ <;>
  · rw [setScenarioMaturity_eq_nf]
    cases lvl <;>
      simp [parseMaturityFile, setScenarioNF, alistGet, alistSet,
        calculateOverallLevel, maturityDataToJson, jsonToMaturityData,
        storyToJson, storyOfJson, scenIdLe, getScenarioMaturity,
        getUserStoryMaturity, levelIndex, levelOfIndex]

/-- C10: `setTestStatus` writes the file exactly when a test entry with
the given name already exists under the story and scenario; when none
does, the call is a complete no-op returning the record unchanged, and
when one does, that entry's status and last-run stamp are updated. -/
theorem setTestStatus_noop (data : MaturityData) (n : Nat)
    (scenId testName : String) (status : TestStatus) (today : String) :
    ((setTestStatus data n scenId testName status today).2 = true
        ↔ ((getTestsForScenario data n scenId).find?
            (fun t => t.testName == testName)).isSome = true)
      ∧ ((getTestsForScenario data n scenId).find?
            (fun t => t.testName == testName) = Option.none →
          setTestStatus data n scenId testName status today = (data, false))
      ∧ (∀ t0, (getTestsForScenario data n scenId).find?
            (fun t => t.testName == testName) = some t0 →
          (getTestsForScenario
              (setTestStatus data n scenId testName status today).1
              n scenId).find? (fun t => t.testName == testName)
            = some { t0 with status := status, lastRun := some today }
          ∧ getTestStatus
              (setTestStatus data n scenId testName status today).1
              n scenId testName = status) := by
  refine ⟨?_, ?_, ?_⟩
  · cases hf : (getTestsForScenario data n scenId).find?
        (fun t => t.testName == testName) with
    | none => simp [setTestStatus, hf]
    | some t0 => simp [setTestStatus, hf]
  · intro hf
    simp [setTestStatus, hf]
  · intro t0 hf
    cases hus : alistGet data.userStories ("US" ++ natStr n) with
    | none =>
      simp only [getTestsForScenario, hus] at hf
      simp at hf
    | some story =>
      cases hsc : alistGet story.scenarios scenId with
      | none =>
        simp only [getTestsForScenario, hus, hsc] at hf
        simp at hf
      | some sc =>
        have hftests : sc.tests.find? (fun t => t.testName == testName)
            = some t0 := by
          simpa only [getTestsForScenario, hus, hsc] using hf
        have htests : getTestsForScenario
            (setTestStatus data n scenId testName status today).1 n scenId
            = updateFirst (fun t => t.testName == testName)
                (fun t => { t with status := status, lastRun := some today })
                sc.tests := by
          simp only [setTestStatus, hf]
          simp only [getTestsForScenario, alistGet_updateFirst, hus, hsc,
            Option.map_some']
        have hfind : (getTestsForScenario
              (setTestStatus data n scenId testName status today).1
              n scenId).find? (fun t => t.testName == testName)
            = some { t0 with status := status, lastRun := some today } := by
          rw [htests, find?_updateFirst (fun (t : TestEntry) => t.testName == testName)
            (fun (t : TestEntry) => { t with status := status, lastRun := some today })
            (fun x => rfl), hftests, Option.map_some']
        refine ⟨hfind, ?_⟩
        rw [getTestStatus, hfind]

/-! ## Lemmas about the file comparator and sorted search -/

theorem charListLe_refl : ∀ (s : List Char), charListLe s s = true := by
  intro s
  induction s with
  | nil => rfl
  | cons c cs ih => simp [charListLe, ih]

theorem charListLe_total (a b : List Char) :
    charListLe a b = true ∨ charListLe b a = true := by
  induction a generalizing b with
  | nil => exact Or.inl rfl
  | cons x xs ih =>
    cases b with
    | nil => exact Or.inr rfl
    | cons y ys =>
      by_cases h1 : x.toNat < y.toNat
      · exact Or.inl (by simp [charListLe, h1])
      · by_cases h2 : y.toNat < x.toNat
        · exact Or.inr (by simp [charListLe, h2, h1])
        · rcases ih ys with h | h
          · exact Or.inl (by simp [charListLe, h1, h2, h])
          · exact Or.inr (by simp [charListLe, h1, h2, h])

theorem charListLe_trans :
    ∀ (a b c : List Char), charListLe a b = true → charListLe b c = true →
      charListLe a c = true := by
  intro a
  induction a with
  | nil => intro b c _ _; rfl
  | cons x xs ih =>
    intro b c h1 h2
    cases b with
    | nil => simp [charListLe] at h1
    | cons y ys =>
      cases c with
      | nil => simp [charListLe] at h2
      | cons z zs =>
        simp only [charListLe] at h1 h2 ⊢
        split_ifs at h1 h2 ⊢ <;> try rfl
        all_goals try omega
        all_goals try simp_all
        exact ih ys zs h1 h2

theorem fileLe_refl (n : Nat) (a : String) : fileLe n a a = true := by
  simp [fileLe, charListLe_refl]

theorem fileLe_total (n : Nat) (a b : String) :
    fileLe n a b = true ∨ fileLe n b a = true := by
  unfold fileLe
  cases ha : anchoredUsMatch n a <;> cases hb : anchoredUsMatch n b <;>
    simp <;> exact charListLe_total a.data b.data

theorem fileLe_trans (n : Nat) (a b c : String) :
    fileLe n a b = true → fileLe n b c = true → fileLe n a c = true := by
  unfold fileLe
  cases ha : anchoredUsMatch n a <;> cases hb : anchoredUsMatch n b <;>
    cases hc : anchoredUsMatch n c <;> simp <;>
    exact charListLe_trans a.data b.data c.data

/-- In a list that is pairwise ordered by a reflexive boolean relation,
the first element satisfying a predicate is a least one among those
satisfying it. -/
theorem find?_pairwise_min {α : Type} (le : α → α → Bool) (p : α → Bool)
    (hrefl : ∀ a, le a a = true) :
    ∀ (l : List α), l.Pairwise (fun a b => le a b = true) →
      ∀ f, l.find? p = some f →
        p f = true ∧ ∀ g ∈ l, p g = true → le f g = true := by
  intro l
  induction l with
  | nil => intro _ f h; simp at h
  | cons x xs ih =>
    intro hp f h
    rcases List.pairwise_cons.mp hp with ⟨hx, hxs⟩
    by_cases hpx : p x
    · rw [List.find?_cons_of_pos _ hpx] at h
      injection h with h
      subst h
      refine ⟨hpx, ?_⟩
      intro g hg _
      rcases List.mem_cons.mp hg with rfl | hg
      · exact hrefl _
      · exact hx g hg
    · rw [List.find?_cons_of_neg _ (by simp [hpx])] at h
      rcases ih hxs f h with ⟨hpf, hmin⟩
      refine ⟨hpf, ?_⟩
      intro g hg hpg
      rcases List.mem_cons.mp hg with rfl | hg
      · exact absurd hpg (by simp [hpx])
      · exact hmin g hg hpg

/-- C8: when any candidate file matches the story's naming patterns,
`findTestFileForStory` deterministically returns a matching file that is
least under the comparator (anchored `^us{N}(-|$)` matches first, ties
broken alphabetically); ambiguity is resolved by this order, never
reported as an error. -/
theorem findTestFileForStory_best (testFiles : List String)
    (storyNumber : Nat) (f0 : String) (hmem : f0 ∈ testFiles)
    (hmatch : matchesUserStory storyNumber f0 = true) :
    ∃ f, findTestFileForStory testFiles storyNumber = some f
      ∧ f ∈ testFiles ∧ matchesUserStory storyNumber f = true
      ∧ ∀ g ∈ testFiles, matchesUserStory storyNumber g = true →
          fileLe storyNumber f g = true := by
  classical
  set r : String → String → Prop := fun a b => fileLe storyNumber a b with hr
  have hsorted : (List.insertionSort
      (fun a b => fileLe storyNumber a b) testFiles).Pairwise
      (fun a b => fileLe storyNumber a b = true) := by
    haveI : IsTotal String r := ⟨by
      intro a b
      simpa [hr] using fileLe_total storyNumber a b⟩
    haveI : IsTrans String r := ⟨by
      intro a b c h1 h2
      simpa [hr] using fileLe_trans storyNumber a b c (by simpa [hr] using h1)
        (by simpa [hr] using h2)⟩
    have := List.sorted_insertionSort r testFiles
    simpa [hr, List.Sorted] using this
  have hmem' : f0 ∈ List.insertionSort
      (fun a b => fileLe storyNumber a b) testFiles :=
    (List.mem_insertionSort _).mpr hmem
  have hfind : (List.insertionSort
      (fun a b => fileLe storyNumber a b) testFiles).find?
      (fun f => matchesUserStory storyNumber f) ≠ Option.none := by
    intro hnone
    rw [List.find?_eq_none] at hnone
    exact absurd hmatch (by simpa using hnone f0 hmem')
  cases hfound : (List.insertionSort
      (fun a b => fileLe storyNumber a b) testFiles).find?
      (fun f => matchesUserStory storyNumber f) with
  | none => exact absurd hfound hfind
  | some f =>
    rcases find?_pairwise_min (fileLe storyNumber)
        (fun f => matchesUserStory storyNumber f) (fileLe_refl storyNumber)
        _ hsorted f hfound with ⟨hpf, hmin⟩
    refine ⟨f, ?_, ?_, hpf, ?_⟩
    · simpa [findTestFileForStory] using hfound
    · exact (List.mem_insertionSort _).mp (List.mem_of_find?_eq_some hfound)
    · intro g hg hpg
      exact hmin g ((List.mem_insertionSort _).mpr hg) hpg

/-- C8 witness: the anchored file with the alphabetically least name is
returned among three candidates. -/
theorem findTestFileForStory_best_witness :
    ∃ f, findTestFileForStory
        ["zz-us1.spec.ts", "us1-b.spec.ts", "us1-a.spec.ts"] 1 = some f
      ∧ f ∈ ["zz-us1.spec.ts", "us1-b.spec.ts", "us1-a.spec.ts"]
      ∧ matchesUserStory 1 f = true
      ∧ ∀ g ∈ ["zz-us1.spec.ts", "us1-b.spec.ts", "us1-a.spec.ts"],
          matchesUserStory 1 g = true → fileLe 1 f g = true :=
  findTestFileForStory_best ["zz-us1.spec.ts", "us1-b.spec.ts", "us1-a.spec.ts"]
    1 "zz-us1.spec.ts" (by decide) (by decide)

/-! ## Lemmas about the parser loop -/

theorem stepLine_inv (st : ParserState) (line : List Char) (i : Nat)
    (h : ParseInv i st) : ParseInv (i + 1) (stepLine st line (i + 1)) := by
  obtain ⟨hEnd, hStories, hCur⟩ := h
  simp only [stepLine]
  split
  · -- story heading: close the open story, open a new one
    rename_i n title prio heq
    refine ⟨by simpa using Nat.le_succ_of_le hEnd, ?_, ?_⟩
    · intro U hU
      rcases hcur : st.cur with _ | c
      · rw [hcur] at hU
        exact hStories U hU
      · rw [hcur] at hU
        rcases List.mem_append.mp hU with hU | hU
        · exact hStories U hU
        · rcases List.mem_singleton.mp hU with rfl
          intro s hs
          rcases (hCur c hcur).2 s hs with ⟨h1, h2⟩
          exact ⟨h1, h2⟩
    · intro c' hc'
      injection hc' with hc'
      subst hc'
      exact ⟨Nat.le_refl _, by intro s hs; simp at hs⟩
  · -- not a heading
    rename_i heq
    rcases hcur : st.cur with _ | c
    · simp only [hcur]
      exact ⟨Nat.le_succ_of_le hEnd, hStories, by
        intro c hc; rw [hcur] at hc; cases hc⟩
    · simp only [hcur]
      rcases hCur c hcur with ⟨hstart, hscen⟩
      have hBase : ∀ (c' : UserStory), c'.startLine = c.startLine →
          c'.acceptanceScenarios = c.acceptanceScenarios →
          ParseInv (i + 1)
            { stories := st.stories, cur := some c', curEnd := i + 1,
              inAS := st.inAS } := by
        intro c' h1 h2
        refine ⟨Nat.le_refl _, hStories, ?_⟩
        intro c'' hc''
        injection hc'' with hc''
        subst hc''
        rw [h1, h2]
        refine ⟨by omega, ?_⟩
        intro s hs
        rcases hscen s hs with ⟨ha, hb⟩
        refine ⟨ha, ?_⟩
        dsimp only
        omega
      have hAdd : ∀ (sc : AcceptanceScenario), sc.line = i + 1 →
          ParseInv (i + 1)
            { stories := st.stories,
              cur := some { c with acceptanceScenarios :=
                c.acceptanceScenarios ++ [sc] },
              curEnd := i + 1, inAS := st.inAS } := by
        intro sc hline
        refine ⟨Nat.le_refl _, hStories, ?_⟩
        intro c'' hc''
        injection hc'' with hc''
        subst hc''
        refine ⟨by dsimp only; omega, ?_⟩
        intro s hs
        rcases List.mem_append.mp hs with hs | hs
        · rcases hscen s hs with ⟨ha, hb⟩
          refine ⟨by dsimp only; omega, ?_⟩
          dsimp only
          omega
        · rcases List.mem_singleton.mp hs with rfl
          constructor
          · dsimp only; omega
          · dsimp only; omega
      split
      · exact hBase _ rfl rfl
      · split
        · exact hBase _ rfl rfl
        · split
          · exact hBase _ rfl rfl
          · split
            · exact hBase _ rfl rfl
            · split
              · split
                · exact hAdd _ rfl
                · split
                  · exact hAdd _ rfl
                  · exact hBase _ rfl rfl
              · split
                · exact hBase _ rfl rfl
                · exact hBase _ rfl rfl

theorem foldl_enumFrom_inv :
    ∀ (ls : List (List Char)) (k : Nat) (st : ParserState),
      ParseInv k st →
      ParseInv (k + ls.length)
        ((ls.enumFrom k).foldl (fun st p => stepLine st p.2 (p.1 + 1)) st) := by
  intro ls
  induction ls with
  | nil => intro k st h; simpa using h
  | cons x xs ih =>
    intro k st h
    have h1 := stepLine_inv st x k h
    have h2 := ih (k + 1) _ h1
    have harith : k + 1 + xs.length = k + (xs.length + 1) := by omega
    rw [harith] at h2
    simpa [List.enumFrom_cons] using h2

/-- C3 (amended): every scenario of every parsed story — the last story
included — satisfies `startLine < scenario.line ≤ endLine`; consequently
`endLine ≥ startLine` holds for every story owning at least one scenario.
(The unconditional `endLine ≥ startLine` of the original claim fails for
a story whose heading is immediately followed by another heading or by
the end of the document, see the counterexample.) -/
theorem parse_scenario_lines (filePath dirPath dirName : String)
    (planFilePath : Option String) (mtime : Nat) (content : String) :
    ∀ U ∈ (parseSpecContent filePath dirPath dirName planFilePath mtime
        content).userStories,
      (∀ s ∈ U.acceptanceScenarios,
          U.startLine < s.line ∧ s.line ≤ U.endLine)
        ∧ (U.acceptanceScenarios ≠ [] → U.startLine ≤ U.endLine) := by
  intro U hU
  have base : ParseInv 0 initState := by
    refine ⟨Nat.le_refl 0, ?_, ?_⟩
    · intro U hU; simp [initState] at hU
    · intro c hc; simp [initState] at hc
  have hinv := foldl_enumFrom_inv (splitOnChar '\n' content.data) 0
    initState base
  simp only [parseSpecContent] at hU
  rcases hinv with ⟨hEnd, hStories, hCur⟩
  have hOk : StoryOk U := by
    rcases hcur : ((splitOnChar '\n' content.data).enumFrom 0).foldl
        (fun st p => stepLine st p.2 (p.1 + 1)) initState |>.cur with _ | c
    · rw [List.enum] at hU
      rw [hcur] at hU
      exact hStories U hU
    · rw [List.enum] at hU
      rw [hcur] at hU
      rcases List.mem_append.mp hU with hU | hU
      · exact hStories U hU
      · rcases List.mem_singleton.mp hU with rfl
        intro s hs
        exact (hCur c hcur).2 s hs
  refine ⟨hOk, ?_⟩
  intro hne
  rcases hne' : U.acceptanceScenarios with _ | ⟨s, rest⟩
  · exact absurd hne' hne
  · have := hOk s (by rw [hne']; exact List.mem_cons_self s rest)
    omega

/-- C3 (counterexample to the claim as stated): with two adjacent story
headings the first story is closed with the stale initial end line 0,
violating `endLine >= startLine`. -/
theorem parse_endLine_cex :
    ∃ U ∈ (parseSpecContent "f" "d" "001-a" Option.none 0 cexDoc).userStories,
      U.endLine < U.startLine := by
  decide

/-- C3 witness: the invariant instantiated on a concrete document. -/
theorem parse_scenario_lines_witness :
    (demoStory.startLine < demoScenario.line
        ∧ demoScenario.line ≤ demoStory.endLine)
      ∧ (demoStory.acceptanceScenarios ≠ [] →
          demoStory.startLine ≤ demoStory.endLine) :=
  ⟨(parse_scenario_lines "f" "d" "001-a" Option.none 0 demoDoc demoStory
      (by decide)).1 demoScenario (by decide),
   (parse_scenario_lines "f" "d" "001-a" Option.none 0 demoDoc demoStory
      (by decide)).2⟩

/-- C9: the two-line input produces two distinct scenarios `US1-AS1` and
`US1-AS1a`, both with base ordinal 1; and whenever the explicit-identifier
grammar matches a line, the parser records the explicit identifier, never
a positionally synthesised one. -/
theorem scenario_explicit_id :
    ((parseSpecContent "f" "d" "001-a" Option.none 0 subLetterDoc).userStories.map
        (fun u => u.acceptanceScenarios.map (fun s => (s.id, s.number))))
      = [[("US1-AS1", 1), ("US1-AS1a", 1)]]
    ∧ (∀ (st : ParserState) (c : UserStory) (line : List Char)
        (lineNum : Nat) (numStr : List Char) (id g w t : String),
        st.cur = some c → st.inAS = true →
        matchUserStoryHeading line = Option.none →
        matchWhyPriority line = Option.none →
        matchIndependentTest line = Option.none →
        containsL line ("**Acceptance Scenarios".data) = false →
        startsWithL line ("---".data) = false →
        matchScenarioWithId line = some (numStr, id, g, w, t) →
        ∃ sc, (stepLine st line lineNum).cur
            = some { c with acceptanceScenarios := c.acceptanceScenarios ++ [sc] }
          ∧ sc.id = id ∧ sc.number = parseScenarioNumber numStr) := by
  constructor
  · decide
  · intro st c line lineNum numStr id g w t hcur hin hh hw hi hacc hdash hsc
    refine ⟨{ number := parseScenarioNumber numStr, id := id, given_ := g,
              when_ := w, then_ := t, line := lineNum }, ?_, rfl, rfl⟩
    simp only [stepLine, hh, hcur, hw, hi, hacc, hdash, hin, hsc,
      Bool.false_eq_true, if_false, if_true]

/-! ## Lemmas about the frontmatter functions -/

theorem startsWithL_append_self :
    ∀ (p s : List Char), startsWithL (p ++ s) p = true := by
  intro p
  induction p with
  | nil => intro s; cases s <;> rfl
  | cons c cs ih => intro s; simp [startsWithL, ih]

theorem findSub_nil (sep : List Char) :
    findSub sep [] = if sep.isEmpty then some ([], []) else Option.none := rfl

theorem findSub_cons (sep : List Char) (c : Char) (cs : List Char) :
    findSub sep (c :: cs)
      = if startsWithL (c :: cs) sep then some ([], (c :: cs).drop sep.length)
        else (findSub sep cs).map (fun p => (c :: p.1, p.2)) := rfl

theorem findSub_marker :
    ∀ (A B : List Char), '\n' ∉ A →
      findSub ("\n---".data) (A ++ ("\n---".data) ++ B) = some (A, B) := by
  intro A
  induction A with
  | nil =>
    intro B _
    show findSub ("\n---".data) (("\n---".data) ++ B) = some ([], B)
    rw [show ("\n---".data) ++ B = '\n' :: (("---".data) ++ B) from rfl]
    rw [findSub_cons]
    rw [show ('\n' :: (("---".data) ++ B)) = ("\n---".data) ++ B from rfl,
      startsWithL_append_self]
    simp only [if_true]
    rw [show (("\n---".data) ++ B).drop (("\n---".data).length) = B from
      List.drop_left _ _]
  | cons a A ih =>
    intro B hnl
    have ha : a ≠ '\n' := fun h => hnl (by simp [h])
    have hrec := ih B (fun h => hnl (List.mem_cons_of_mem a h))
    show findSub ("\n---".data) (a :: (A ++ ("\n---".data) ++ B))
      = some (a :: A, B)
    rw [findSub_cons]
    have hsw : startsWithL (a :: (A ++ ("\n---".data) ++ B)) ("\n---".data)
        = false := by
      rw [show ("\n---".data) = '\n' :: ("---".data) from rfl]
      simp [startsWithL, ha]
    rw [hsw]
    simp only [Bool.false_eq_true, if_false]
    rw [hrec]
    rfl

theorem splitOnChar_no_sep (sep : Char) :
    ∀ (l : List Char), sep ∉ l → splitOnChar sep l = [l] := by
  intro l
  induction l with
  | nil => intro _; rfl
  | cons c cs ih =>
    intro h
    have hc : (c == sep) = false := by
      simp only [beq_eq_false_iff_ne]
      exact fun hh => h (by simp [hh])
    rw [splitOnChar, hc]
    simp only [Bool.false_eq_true, if_false]
    rw [ih (fun hh => h (List.mem_cons_of_mem c hh))]

theorem expandRepl_cons_ne (matched before after : List Char) (c : Char)
    (rest : List Char) (hc : (c == '$') = false) :
    expandRepl matched before after (c :: rest)
      = c :: expandRepl matched before after rest := by
  rw [expandRepl.eq_def]
  simp [hc]

theorem expandRepl_no_dollar (matched before after : List Char) :
    ∀ (s : List Char), '$' ∉ s → expandRepl matched before after s = s := by
  intro s
  induction s with
  | nil => intro _; rfl
  | cons c cs ih =>
    intro h
    have hc : (c == '$') = false := by
      simp only [beq_eq_false_iff_ne]
      exact fun hh => h (by simp [hh])
    rw [expandRepl_cons_ne _ _ _ _ _ hc]
    rw [ih (fun hh => h (List.mem_cons_of_mem c hh))]

theorem trimL_fix_head (c : Char) (l : List Char)
    (h : trimL (c :: l) = c :: l) : jsSpace c = false := by
  by_contra hc
  have hc' : jsSpace c = true := by
    cases hcc : jsSpace c
    · exact absurd hcc hc
    · rfl
  have hdrop : (c :: l).dropWhile (fun c => jsSpace c)
      = l.dropWhile (fun c => jsSpace c) := by
    simp [List.dropWhile_cons, hc']
  have hlen : (trimL (c :: l)).length ≤ l.length := by
    calc (trimL (c :: l)).length
        = ((l.dropWhile (fun c => jsSpace c)).reverse.dropWhile
            (fun c => jsSpace c)).length := by simp [trimL, hdrop]
      _ ≤ (l.dropWhile (fun c => jsSpace c)).reverse.length :=
          (List.dropWhile_sublist _).length_le
      _ = (l.dropWhile (fun c => jsSpace c)).length := by simp
      _ ≤ l.length := (List.dropWhile_sublist _).length_le
  rw [h] at hlen
  simp at hlen

theorem yamlKeyValue_testDirectory (v : List Char) (hne : v ≠ [])
    (htw : v.takeWhile (fun c => jsSpace c) = [])
    (hdwv : v.dropWhile (fun c => jsSpace c) = v) :
    yamlKeyValue (("testDirectory: ".data) ++ v)
      = some ("testDirectory".data, v) := by
  have hsplit : ("testDirectory: ".data) ++ v
      = ("testDirectory".data) ++ (':' :: ' ' :: v) := rfl
  have hword : ∀ c ∈ ("testDirectory".data), isWordChar c := by decide
  rw [yamlKeyValue, hsplit]
  rw [List.takeWhile_append_of_pos hword, List.dropWhile_append_of_pos hword]
  have htw2 : (':' :: ' ' :: v).takeWhile (fun c => isWordChar c) = [] := by
    rw [List.takeWhile_cons_of_neg (by decide)]
  have hdw2 : (':' :: ' ' :: v).dropWhile (fun c => isWordChar c)
      = ':' :: ' ' :: v := by
    rw [List.dropWhile_cons_of_neg (by decide)]
  rw [htw2, hdw2]
  simp only [List.append_nil]
  rw [if_neg (by decide)]
  rw [if_neg (by simp [List.isEmpty_iff])]
  have hheadv : v.head? = Option.none ∨ ∃ c, v.head? = some c ∧ jsSpace c = false := by
    cases v with
    | nil => exact Or.inl rfl
    | cons c cs =>
      refine Or.inr ⟨c, rfl, ?_⟩
      cases hc : jsSpace c
      · rfl
      · rw [List.takeWhile_cons_of_pos (by simpa using hc)] at htw
        cases htw
  have hws : (' ' :: v).takeWhile (fun c => jsSpace c) = [' '] := by
    rw [List.takeWhile_cons_of_pos (by decide)]
    cases v with
    | nil => rfl
    | cons c cs =>
      rcases hheadv with h | ⟨c', hc', hsp⟩
      · cases h
      · injection hc' with hc'
        subst hc'
        rw [List.takeWhile_cons_of_neg (by simp [hsp])]
  have hval : (' ' :: v).dropWhile (fun c => jsSpace c) = v := by
    rw [List.dropWhile_cons_of_pos (by decide)]
    exact hdwv
  rw [hws, hval]
  rw [if_neg (by simp [List.isEmpty_iff, hne])]

/-- C4 (amended): for every document and every stored value that is
non-empty, newline-free, dollar-free and equal to its own trim, writing
`testDirectory` and reading it back returns that value; and adding a
value to a header-less document and then writing an empty value set
removes the header block, leaving the document byte-identical.  (The
unrestricted claim fails: an empty value is falsy in JS and treated as
absence, and a value with a newline is truncated at its first line by the
reader, see the counterexample.) -/
theorem metadata_roundtrip (content : List Char) (v : String)
    (h1 : v.data ≠ []) (h2 : '\n' ∉ v.data) (h3 : trimL v.data = v.data)
    (h4 : '$' ∉ v.data) :
    readAfterWrite content { testDirectory := some v }
        = { testDirectory := some v }
      ∧ (frontmatterSplit content = Option.none →
          updateYamlFrontmatter
            (updateYamlFrontmatter content { testDirectory := some v })
            {} = content) := by
  have hempty : v.data.isEmpty = false := by
    cases hv : v.data with
    | nil => exact absurd hv h1
    | cons c cs => rfl
  have hnlline : '\n' ∉ ("testDirectory: ".data) ++ v.data := by
    intro h
    rcases List.mem_append.mp h with h | h
    · revert h; decide
    · exact h2 h
  have hnodollar : '$' ∉ (("---\n".data)
      ++ (("testDirectory: ".data) ++ v.data) ++ ("\n---".data)) := by
    intro h
    rcases List.mem_append.mp h with h | h
    · rcases List.mem_append.mp h with h | h
      · revert h; decide
      · rcases List.mem_append.mp h with h | h
        · revert h; decide
        · exact h4 h
    · revert h; decide
  have hhead : ∃ c cs, v.data = c :: cs ∧ jsSpace c = false := by
    cases hv : v.data with
    | nil => exact absurd hv h1
    | cons c cs =>
      refine ⟨c, cs, rfl, ?_⟩
      apply trimL_fix_head c cs
      rw [← hv]
      exact h3
  have htakev : v.data.takeWhile (fun c => jsSpace c) = [] := by
    obtain ⟨c, cs, hv, hc⟩ := hhead
    rw [hv, List.takeWhile_cons_of_neg (by simp [hc])]
  have hdropv : v.data.dropWhile (fun c => jsSpace c) = v.data := by
    obtain ⟨c, cs, hv, hc⟩ := hhead
    rw [hv, List.dropWhile_cons_of_neg (by simp [hc])]
  have hfm2 : ∀ R : List Char,
      frontmatterSplit (("---\n".data)
          ++ ((("testDirectory: ".data) ++ v.data) ++ ("\n---".data) ++ R))
        = some (("testDirectory: ".data) ++ v.data, R) := by
    intro R
    rw [frontmatterSplit]
    rw [if_pos (startsWithL_append_self ("---\n".data) _)]
    rw [show (("---\n".data)
        ++ ((("testDirectory: ".data) ++ v.data) ++ ("\n---".data) ++ R)).drop 4
      = (("testDirectory: ".data) ++ v.data) ++ ("\n---".data) ++ R from rfl]
    exact findSub_marker _ R hnlline
  have hparse : ∀ R : List Char,
      parseYamlFrontmatter (("---\n".data)
          ++ ((("testDirectory: ".data) ++ v.data) ++ ("\n---".data) ++ R))
        = { testDirectory := some v } := by
    intro R
    rw [parseYamlFrontmatter.eq_def, hfm2 R]
    dsimp only
    rw [splitOnChar_no_sep '\n' _ hnlline]
    simp only [List.foldl_cons, List.foldl_nil]
    rw [yamlKeyValue_testDirectory v.data h1 htakev hdropv]
    simp only [beq_self_eq_true, if_pos, h3]
  have hshape : ∀ R : List Char,
      ((("---\n".data) ++ (("testDirectory: ".data) ++ v.data)
          ++ ("\n---".data)) ++ R)
        = ("---\n".data)
            ++ ((("testDirectory: ".data) ++ v.data) ++ ("\n---".data) ++ R) := by
    intro R
    simp [List.append_assoc]
  constructor
  · rw [readAfterWrite]
    cases hfm : frontmatterSplit content with
    | some p =>
      obtain ⟨yaml, rest⟩ := p
      have hwritten : updateYamlFrontmatter content { testDirectory := some v }
          = (("---\n".data) ++ (("testDirectory: ".data) ++ v.data)
              ++ ("\n---".data)) ++ rest := by
        simp only [updateYamlFrontmatter, hfm, hempty, Bool.false_eq_true,
          if_false]
        rw [expandRepl_no_dollar _ _ _ _ hnodollar]
      rw [hwritten, hshape rest]
      exact hparse rest
    | none =>
      have hwritten : updateYamlFrontmatter content { testDirectory := some v }
          = (("---\n".data) ++ (("testDirectory: ".data) ++ v.data)
              ++ ("\n---".data)) ++ ('\n' :: content) := by
        simp only [updateYamlFrontmatter, hfm, hempty, Bool.false_eq_true,
          if_false]
      rw [hwritten, hshape ('\n' :: content)]
      exact hparse ('\n' :: content)
  · intro hfm
    have hwritten : updateYamlFrontmatter content { testDirectory := some v }
        = (("---\n".data) ++ (("testDirectory: ".data) ++ v.data)
            ++ ("\n---".data)) ++ ('\n' :: content) := by
      simp only [updateYamlFrontmatter, hfm, hempty, Bool.false_eq_true,
        if_false]
    rw [hwritten, hshape ('\n' :: content)]
    rw [updateYamlFrontmatter.eq_def, hfm2 ('\n' :: content)]
    simp

/-- C4 (counterexample to the claim as stated): writing the value
`"a\nb"`, which contains a newline, reads back as `"a"`. -/
theorem metadata_roundtrip_cex :
    readAfterWrite ("body".data) { testDirectory := some "a\nb" }
      ≠ { testDirectory := some "a\nb" } := by
  decide

/-- C4 witness: the round trip and header removal on a concrete document
and value. -/
theorem metadata_roundtrip_witness :
    (readAfterWrite ("# doc\ntext\n".data) { testDirectory := some "tests/e2e" }
        = { testDirectory := some "tests/e2e" })
      ∧ (frontmatterSplit ("# doc\ntext\n".data) = Option.none →
          updateYamlFrontmatter
            (updateYamlFrontmatter ("# doc\ntext\n".data)
              { testDirectory := some "tests/e2e" })
            {} = ("# doc\ntext\n".data)) :=
  metadata_roundtrip ("# doc\ntext\n".data) "tests/e2e" (by decide) (by decide)
    (by decide) (by decide)

/-- C6: the parse fails (returns `Option.none`, the embedding of `null`)
exactly on an I/O failure of the initial file read; any readable text at
all yields a `FeatureSpec`, a structureless document degrading to one
with zero user stories. -/
theorem parseSpecFromDisk_total (filePath dirPath dirName : String)
    (planFilePath : Option String) (mtime : Nat) (content : Option String) :
    (parseSpecFromDisk filePath dirPath dirName planFilePath mtime content
        = Option.none ↔ content = Option.none)
      ∧ (parseSpecContent filePath dirPath dirName planFilePath mtime
          malformedDoc).userStories = [] := by
  constructor
  · cases content <;> simp [parseSpecFromDisk]
  · rfl

end Speckit
